import Mathlib

/-!
Verification of the in-memory defect-analytics engine of `src/src/App.tsx`
(a manufacturing-defect dashboard).  The analytics are pure functions of the
current record list; they are embedded here shallowly:

* JS numbers are modelled as exact rationals (`ℚ`); severity ratings, counts
  and ids — which are integral in the data model — as naturals.
* `parseFloat(x.toFixed(2))` is modelled by `round2` (round half up at two
  decimal places).
* the JS `reduce`-into-an-object grouping pattern is modelled by `groupFold`,
  an association-list fold that preserves key-insertion order, which is
  exactly the order `Object.entries` later yields.
* `Array.prototype.sort` is stable (ES2019); it is modelled by the stable
  insertion sort `sortS`, where `le a b = true` means `a` may stay in front
  of `b` (the JS comparator returns `≤ 0`).
* the square root in the outlier bounds (`stdDev = √variance`) is eliminated:
  the bound comparisons `x > mean + k·√variance` are expressed
  square-root-free over `ℚ` (`gtUpperB`/`ltLowerB`), and a bridging lemma
  over `ℝ` shows the two forms agree.
* the division `0/0` that JS evaluates to `NaN` (the unguarded empty-set case
  of `calculateOutliers`) is modelled by `Option`: `none` is the NaN result.
-/

namespace QDash

/-- A manufacturing defect record (`interface Defect`, App.tsx lines 10-30).
Field order matches the object-literal insertion order of the generator
(lines 50-70), which is the order `Object.values` enumerates. -/
structure Defect where
  id : ℕ
  date : String
  time : String
  defectName : String
  station : String
  partOfCar : String
  reporter : String
  partNumber : String
  severityRating : ℕ
  carModel : String
  motorType : String
  designPackage : String
  productionShift : String
  resolutionTime : ℚ
  rootCauseIdentified : String
  defectCategory : String
  flagged : Bool
  note : String
  status : String
deriving DecidableEq, Repr

/-- `parseFloat(x.toFixed(2))`: round to two decimal places. -/
def round2 (q : ℚ) : ℚ := (round (q * 100) : ℤ) / 100

/-- Insert-or-update in an association list. An existing key keeps its
position and gets its value updated; a new key is appended at the end.  This
is how a JS object behaves under `acc[k] = …` (string keys enumerate in
insertion order). -/
def upsert {κ ν : Type} [DecidableEq κ] (k : κ) (f : ν → ν) (v0 : ν) :
    List (κ × ν) → List (κ × ν)
  | [] => [(k, v0)]
  | (k', v) :: rest =>
      if k' = k then (k', f v) :: rest else (k', v) :: upsert k f v0 rest

/-- The JS `data.reduce((acc, d) => { acc[key d] = upd (acc[key d] ?? v0) d; … }, {})`
grouping pattern, as an association list in key-insertion order (the order
`Object.entries` produces). -/
def groupFold {α κ ν : Type} [DecidableEq κ] (key : α → κ) (upd : ν → α → ν)
    (v0 : ν) (data : List α) : List (κ × ν) :=
  data.foldl (fun acc d => upsert (key d) (fun v => upd v d) (upd v0 d) acc) []

/-- Lookup in an association list (first matching key). -/
def alookup {κ ν : Type} [DecidableEq κ] (k : κ) : List (κ × ν) → Option ν
  | [] => none
  | (k', v) :: rest => if k' = k then some v else alookup k rest

/-- Stable insertion: `x` (an earlier element) goes in front of the first `y`
with `le x y = true`. -/
def insertS {α : Type} (le : α → α → Bool) (x : α) : List α → List α
  | [] => [x]
  | y :: ys => if le x y then x :: y :: ys else y :: insertS le x ys

/-- The stable sort of `Array.prototype.sort`: `le a b = true` iff the JS
comparator of the modelled call site returns `≤ 0` on `(a, b)`, so that on
ties the original (insertion) order is retained. -/
def sortS {α : Type} (le : α → α → Bool) : List α → List α
  | [] => []
  | x :: xs => insertS le x (sortS le xs)

/-- `Array.from(new Set(l))`: the distinct elements of `l` in first-occurrence
order. -/
def firstKeys {κ : Type} [DecidableEq κ] : List κ → List κ
  | [] => []
  | k :: rest => k :: (firstKeys rest).filter (fun x => decide (x ≠ k))

/-! ### Statistical Outlier Engine (`calculateOutliers`, `isOutlier`, lines 85-124) -/

/-- Population mean and variance of a metric.  The source additionally stores
`stdDev = Math.sqrt variance` and the bounds `mean ± k·stdDev`; those are
recovered square-root-free by `gtUpperB`/`ltLowerB` below (see
`gtUpperB_iff_real`). -/
structure MetricStats where
  mean : ℚ
  variance : ℚ
deriving DecidableEq, Repr

/-- JS division of a sum by a length: `0/0` (empty list) evaluates to `NaN`,
modelled as `none`. -/
def jsDivLen (a : ℚ) (n : ℕ) : Option ℚ := if n = 0 then none else some (a / n)

/-- One metric of `calculateOutliers` (lines 96-108): population mean
`(Σ values)/N` and population variance `(Σ (v-mean)²)/N` (denominator `N`,
not `N−1`).  `none` is the `NaN` the unguarded source produces when `N = 0`. -/
def calcMetricStats (vals : List ℚ) : Option MetricStats :=
  (jsDivLen vals.sum vals.length).bind fun mean =>
  (jsDivLen ((vals.map (fun v => (v - mean) ^ 2)).sum) vals.length).map fun variance =>
  ⟨mean, variance⟩

/-- `x > mean + k·√variance`, square-root-free (equivalent for `0 ≤ k`,
`0 ≤ variance`, see `gtUpperB_iff_real`); `false` when the stats are `NaN`
(every JS comparison with `NaN` is false). -/
def gtUpperB (x : ℚ) (s : Option MetricStats) (k : ℚ) : Bool :=
  match s with
  | none => false
  | some s => decide (s.mean < x) && decide (k ^ 2 * s.variance < (x - s.mean) ^ 2)

/-- `x < mean − k·√variance`, square-root-free; `false` on `NaN` stats. -/
def ltLowerB (x : ℚ) (s : Option MetricStats) (k : ℚ) : Bool :=
  match s with
  | none => false
  | some s => decide (x < s.mean) && decide (k ^ 2 * s.variance < (s.mean - x) ^ 2)

/-- The `resolutionTime` entry of `calculateOutliers`. -/
def resStats (data : List Defect) : Option MetricStats :=
  calcMetricStats (data.map (fun d => d.resolutionTime))

/-- The `severityRating` entry of `calculateOutliers`. -/
def sevStats (data : List Defect) : Option MetricStats :=
  calcMetricStats (data.map (fun d => (d.severityRating : ℚ)))

/-- `isOutlier` (lines 114-124) at threshold `k` (`stdDevThreshold`):
resolution time above the upper or below the lower statistical bound, or
severity above its upper bound, or severity at or above the static critical
threshold 8. -/
def isOutlier (data : List Defect) (k : ℚ) (r : Defect) : Bool :=
  gtUpperB r.resolutionTime (resStats data) k ||
  ltLowerB r.resolutionTime (resStats data) k ||
  gtUpperB (r.severityRating : ℚ) (sevStats data) k ||
  decide (8 ≤ r.severityRating)

/-! ### Pareto Engine (`pareto`, lines 202-238) -/

/-- One rank of a Pareto view: category, count, individual and cumulative
percentage (both already rounded to two decimals for display). -/
structure ParetoRow where
  name : String
  count : ℕ
  pct : ℚ
  cumPct : ℚ
deriving DecidableEq, Repr

/-- `data.reduce` counting per key, entries in first-occurrence order
(`countByDefect` / `countByPart` / `countsByDefect` / `counts`). -/
def countEntries (key : Defect → String) (data : List Defect) : List (String × ℕ) :=
  groupFold key (fun n _ => n + 1) 0 data

/-- The comparator `(a, b) => b.count - a.count`: `a` stays in front of `b`
iff `count b ≤ count a` (descending, ties keep insertion order). -/
def leCountDesc {β : Type} (count : β → ℕ) (a b : β) : Bool :=
  decide (count b ≤ count a)

/-- The indexed map of the source (`.map((row, i, arr) => …)`): rank `i` gets
`pct = (count/total)·100` and `cumPct = (cum/total)·100` where `cum` is the
prefix sum of counts up to and including rank `i` (the source recomputes it
with `arr.slice(0, i+1).reduce`; here it is carried in `acc`). -/
def cumRows (total : ℚ) (acc : ℕ) : List (String × ℕ) → List ParetoRow
  | [] => []
  | (n, c) :: rest =>
      ⟨n, c, round2 ((c / total) * 100), round2 ((((acc + c : ℕ) : ℚ) / total) * 100)⟩ ::
        cumRows total (acc + c) rest

/-- `const total = data.length || 1` (the explicit N = 0 guard of the Pareto
computation). -/
def paretoTotal (data : List Defect) : ℚ :=
  if data.length = 0 then 1 else data.length

/-- `pareto.defectsPareto` (lines 213-223). -/
def defectsPareto (data : List Defect) : List ParetoRow :=
  cumRows (paretoTotal data) 0
    (sortS (leCountDesc Prod.snd) (countEntries (fun d => d.defectName) data))

/-- `pareto.partsPareto` (lines 225-235). -/
def partsPareto (data : List Defect) : List ParetoRow :=
  cumRows (paretoTotal data) 0
    (sortS (leCountDesc Prod.snd) (countEntries (fun d => d.partOfCar) data))

/-! ### Heatmap Engine (`heatmap`, lines 240-281) -/

/-- One flattened heatmap row `{defectName, station, shift, count}`. -/
structure HeatCell where
  defectName : String
  station : String
  shift : String
  count : ℕ
deriving DecidableEq, Repr

/-- `topN`: the six most frequent defect names — count entries, sort
descending (stable), `slice(0, 6)`, keep the names. -/
def topDefects (data : List Defect) : List String :=
  ((sortS (leCountDesc Prod.snd) (countEntries (fun d => d.defectName) data)).take 6).map
    Prod.fst

/-- `Array.from(new Set(data.map(d => d.station)))`. -/
def hmStations (data : List Defect) : List String :=
  firstKeys (data.map (fun d => d.station))

/-- `Array.from(new Set(data.map(d => d.productionShift)))`. -/
def hmShifts (data : List Defect) : List String :=
  firstKeys (data.map (fun d => d.productionShift))

/-- The `cube` (lines 253-259): `defect → station → shift → count`, fed only
by records whose defect name is in the top-6 list (the `continue`).  The
nested objects are flattened into one association list keyed by the triple. -/
def hmCube (data : List Defect) : List ((String × String × String) × ℕ) :=
  groupFold (fun d => (d.defectName, d.station, d.productionShift)) (fun n _ => n + 1) 0
    (data.filter (fun d => decide (d.defectName ∈ topDefects data)))

/-- `cube[defect]?.[st]?.[sh] ?? 0`. -/
def hmCount (data : List Defect) (defect st sh : String) : ℕ :=
  (alookup (defect, st, sh) (hmCube data)).getD 0

/-- The flattened row list (lines 262-278): every
`(defect ∈ top6) × station × shift` combination. -/
def heatmapRows (data : List Defect) : List HeatCell :=
  ((topDefects data).map (fun defect =>
    (((hmStations data).map (fun st =>
      ((hmShifts data).map (fun sh =>
        (⟨defect, st, sh, hmCount data defect st sh⟩ : HeatCell))))).flatten))).flatten

/-! ### Recurrence Engine (`triads`, lines 293-343) -/

/-- The per-key accumulator of the triad grouping (count, severity sum,
resolution-hour sum, root-cause-"No" count). -/
structure TriadAcc where
  count : ℕ
  sumSeverity : ℕ
  sumResH : ℚ
  rootCauseNo : ℕ
deriving DecidableEq, Repr

/-- The composite key `` `${d.defectName}|||${d.station}|||${d.partOfCar}` ``,
modelled as the triple itself (the string key is injective on names without
the separator). -/
def triadKey (d : Defect) : String × String × String :=
  (d.defectName, d.station, d.partOfCar)

/-- One record's contribution to its triad group (lines 320-323). -/
def triadUpd (v : TriadAcc) (d : Defect) : TriadAcc :=
  ⟨v.count + 1, v.sumSeverity + d.severityRating, v.sumResH + d.resolutionTime,
   v.rootCauseNo + (if d.rootCauseIdentified = "No" then 1 else 0)⟩

/-- The zero accumulator a fresh key starts from (lines 310-318). -/
def triadAcc0 : TriadAcc := ⟨0, 0, 0, 0⟩

/-- A triad row: the aggregates plus the display averages (already rounded to
two decimals, lines 326-330) and the weighted impact score (line 335). -/
structure TriadRow where
  defectName : String
  station : String
  partOfCar : String
  count : ℕ
  sumSeverity : ℕ
  sumResH : ℚ
  rootCauseNo : ℕ
  avgSeverity : ℚ
  avgResH : ℚ
  score : ℚ
deriving DecidableEq, Repr

/-- Lines 326-336 for one group: `avgSeverity`/`avgResH` are the group means
rounded to two decimals, and the score applies the weighted formula to those
already rounded averages (then rounds the result again). -/
def mkTriadRow (e : (String × String × String) × TriadAcc) : TriadRow :=
  let avgSeverity := round2 ((e.2.sumSeverity : ℚ) / e.2.count)
  let avgResH := round2 (e.2.sumResH / e.2.count)
  ⟨e.1.1, e.1.2.1, e.1.2.2, e.2.count, e.2.sumSeverity, e.2.sumResH, e.2.rootCauseNo,
   avgSeverity, avgResH,
   round2 ((e.2.count : ℚ) * (6/10 + 4/10 * (avgSeverity / 10)) + 2/10 * avgResH)⟩

/-- The triad score as a function of a group's count and full-precision sums:
the formula is applied to the two-decimal-rounded averages (this is what the
code of lines 326-336 computes). -/
def triadScoreFromSums (count sumSev : ℕ) (sumRes : ℚ) : ℚ :=
  round2 ((count : ℚ) * (6/10 + 4/10 * (round2 ((sumSev : ℚ) / count) / 10)) +
    2/10 * round2 (sumRes / count))

/-- The unsorted triad aggregate rows (`Object.values(map).map …`). -/
def triadRows (data : List Defect) : List TriadRow :=
  (groupFold triadKey triadUpd triadAcc0 data).map mkTriadRow

/-- The two sorted views of `triads` (lines 339-342). -/
structure TriadViews where
  byCount : List TriadRow
  byScore : List TriadRow
deriving Repr

/-- `triads` (lines 293-343): group by (defect, station, part), aggregate,
then sort descending by raw count and by score (both stable). -/
def triads (data : List Defect) : TriadViews :=
  ⟨sortS (leCountDesc TriadRow.count) (triadRows data),
   sortS (fun a b => decide (b.score ≤ a.score)) (triadRows data)⟩

/-! ### Recurrence Explorer default target (lines 350-357) -/

/-- The default target when no defect is selected: count defect names, sort
entries descending by count (stable), take `[0]?.[0]`. -/
def explorerDefaultTarget (data : List Defect) : Option String :=
  ((sortS (leCountDesc Prod.snd) (countEntries (fun d => d.defectName) data)).head?).map
    Prod.fst

/-! ### Quick-Action Recommender (`quickActions`, lines 460-523) -/

/-- The per-key accumulator of the two composite groupings. -/
structure PairAcc where
  count : ℕ
  sumSev : ℕ
  sumResH : ℚ
deriving DecidableEq, Repr

/-- One record's contribution to its composite group (lines 483, 505). -/
def pairUpd (v : PairAcc) (d : Defect) : PairAcc :=
  ⟨v.count + 1, v.sumSev + d.severityRating, v.sumResH + d.resolutionTime⟩

/-- The quick-action score as a function of a group's count and sums: the same
weighted formula, but applied to the full-precision averages
`sumSev/count`, `sumResH/count`, rounded once at the end (lines 487-489,
509-511). -/
def quickScoreFromSums (count sumSev : ℕ) (sumRes : ℚ) : ℚ :=
  round2 ((count : ℚ) * (6/10 + 4/10 * (((sumSev : ℚ) / count) / 10)) +
    2/10 * (sumRes / count))

/-- A quick-action candidate (lines 467-474); `avgSev`/`avgResH` are rounded
for display only, after the score was computed from the full-precision
averages. -/
structure Cand where
  label : String
  filter : String
  count : ℕ
  avgSev : ℚ
  avgResH : ℚ
  score : ℚ
deriving DecidableEq, Repr

/-- Station × Shift candidate (lines 485-498). -/
def mkCandSS (target : String) (e : (String × String) × PairAcc) : Cand :=
  ⟨e.1.1 ++ " • " ++ e.1.2, target ++ " " ++ e.1.1 ++ " " ++ e.1.2, e.2.count,
   round2 ((e.2.sumSev : ℚ) / e.2.count), round2 (e.2.sumResH / e.2.count),
   quickScoreFromSums e.2.count e.2.sumSev e.2.sumResH⟩

/-- Station × Part candidate (lines 507-520). -/
def mkCandSP (target : String) (e : (String × String) × PairAcc) : Cand :=
  ⟨e.1.1 ++ " • " ++ e.1.2, target ++ " " ++ e.1.1 ++ " " ++ e.1.2, e.2.count,
   round2 ((e.2.sumSev : ℚ) / e.2.count), round2 (e.2.sumResH / e.2.count),
   quickScoreFromSums e.2.count e.2.sumSev e.2.sumResH⟩

/-- `quickActions` for a resolved target defect: restrict to that defect's
records, build the Station × Shift and Station × Part groupings, score each
candidate, merge, sort descending by score (stable), take the top 3. -/
def quickActions (data : List Defect) (target : String) : List Cand :=
  let rows := data.filter (fun d => decide (d.defectName = target))
  let ss := groupFold (fun d => (d.station, d.productionShift)) pairUpd ⟨0, 0, 0⟩ rows
  let sp := groupFold (fun d => (d.station, d.partOfCar)) pairUpd ⟨0, 0, 0⟩ rows
  (sortS (fun a b => decide (b.score ≤ a.score))
    (ss.map (mkCandSS target) ++ sp.map (mkCandSP target))).take 3

/-! ### Record mutations (`handleFlag`, `handleNoteUpdate`, lines 556-564) -/

/-- `handleFlag` (lines 556-560): toggle `flagged` of the record with the
given id; `status` becomes `"Under Review"` when flagging and `""` when
unflagging.  The handler's entire effect is the new array passed to
`setData` — nothing else is returned or reported. -/
def handleFlag (data : List Defect) (id : ℕ) : List Defect :=
  data.map (fun d =>
    if d.id = id then
      { d with flagged := !d.flagged, status := if d.flagged then "" else "Under Review" }
    else d)

/-- `handleNoteUpdate` (lines 562-564): replace the note of the record with
the given id.  As with `handleFlag`, the new array is the entire effect. -/
def handleNoteUpdate (data : List Defect) (id : ℕ) (note : String) : List Defect :=
  data.map (fun d => if d.id = id then { d with note := note } else d)

/-! ### Filter & Sort view (`filtered`, lines 531-553) -/

/-- Whether `pat` occurs as a contiguous run at the front of `l`. -/
def hasPre {α : Type} [DecidableEq α] : List α → List α → Bool
  | [], _ => true
  | _ :: _, [] => false
  | a :: as, b :: bs => decide (a = b) && hasPre as bs

/-- Whether `pat` occurs as a contiguous run anywhere in the second list. -/
def hasInf {α : Type} [DecidableEq α] (pat : List α) : List α → Bool
  | [] => hasPre pat []
  | b :: bs => hasPre pat (b :: bs) || hasInf pat bs

/-- `s.toLowerCase().includes(term.toLowerCase())`. -/
def containsCI (s term : String) : Bool :=
  hasInf term.toLower.toList s.toLower.toList

/-- JS `Number.prototype.toString` for the nonnegative two-decimal values of
the data model ("3", "3.1", "3.05": integer part, fractional part with
trailing zeros dropped), computed from `⌊q·100⌋` (exact on that grid). -/
def ratToDecString (q : ℚ) : String :=
  let c : ℕ := (⌊q * 100⌋).toNat
  let i := c / 100
  let f := c % 100
  if f = 0 then Nat.repr i
  else if f % 10 = 0 then Nat.repr i ++ "." ++ Nat.repr (f / 10)
  else if f < 10 then Nat.repr i ++ ".0" ++ Nat.repr f
  else Nat.repr i ++ "." ++ Nat.repr f

/-- `Object.values(d).map(val => val.toString())`, in the field insertion
order of the record literal (generator lines 50-70). -/
def fieldStrings (d : Defect) : List String :=
  [Nat.repr d.id, d.date, d.time, d.defectName, d.station, d.partOfCar, d.reporter,
   d.partNumber, Nat.repr d.severityRating, d.carModel, d.motorType, d.designPackage,
   d.productionShift, ratToDecString d.resolutionTime, d.rootCauseIdentified,
   d.defectCategory, if d.flagged then "true" else "false", d.note, d.status]

/-- The free-text search predicate (lines 532-536): some field's string form
contains the term, case-insensitively. -/
def matchesSearch (term : String) (d : Defect) : Bool :=
  (fieldStrings d).any (fun s => containsCI s term)

/-- The sortable record fields (`keyof Defect`). -/
inductive FieldKey where
  | id
  | date
  | time
  | defectName
  | station
  | partOfCar
  | reporter
  | partNumber
  | severityRating
  | carModel
  | motorType
  | designPackage
  | productionShift
  | resolutionTime
  | rootCauseIdentified
  | defectCategory
  | flagged
  | note
  | status
deriving DecidableEq, Repr

/-- `aVal < bVal` of the sort comparator (line 546), per field: numbers
numerically, strings lexicographically, booleans with `false < true`. -/
def fieldLt (k : FieldKey) (a b : Defect) : Bool :=
  match k with
  | .id => decide (a.id < b.id)
  | .date => decide (a.date < b.date)
  | .time => decide (a.time < b.time)
  | .defectName => decide (a.defectName < b.defectName)
  | .station => decide (a.station < b.station)
  | .partOfCar => decide (a.partOfCar < b.partOfCar)
  | .reporter => decide (a.reporter < b.reporter)
  | .partNumber => decide (a.partNumber < b.partNumber)
  | .severityRating => decide (a.severityRating < b.severityRating)
  | .carModel => decide (a.carModel < b.carModel)
  | .motorType => decide (a.motorType < b.motorType)
  | .designPackage => decide (a.designPackage < b.designPackage)
  | .productionShift => decide (a.productionShift < b.productionShift)
  | .resolutionTime => decide (a.resolutionTime < b.resolutionTime)
  | .rootCauseIdentified => decide (a.rootCauseIdentified < b.rootCauseIdentified)
  | .defectCategory => decide (a.defectCategory < b.defectCategory)
  | .flagged => !a.flagged && b.flagged
  | .note => decide (a.note < b.note)
  | .status => decide (a.status < b.status)

/-- `sortConfig`: the selected key and direction. -/
structure SortConfig where
  key : FieldKey
  asc : Bool
deriving DecidableEq, Repr

/-- `a` may stay in front of `b` iff the comparator of lines 543-549 returns
`≤ 0`: ascending that is `¬(bVal < aVal)`, descending `¬(aVal < bVal)`. -/
def sortLe (sc : SortConfig) (a b : Defect) : Bool :=
  if sc.asc then !(fieldLt sc.key b a) else !(fieldLt sc.key a b)

/-- `filtered` (lines 531-553): free-text search over every field, the
optional outlier-only filter ANDed in, then the optional single-key sort
(`sortConfig.key = null` is `none`). -/
def filteredView (data : List Defect) (k : ℚ) (term : String) (outliersOnly : Bool)
    (sc : Option SortConfig) : List Defect :=
  let result := data.filter (matchesSearch term)
  let result := if outliersOnly then result.filter (isOutlier data k) else result
  match sc with
  | none => result
  | some sc => sortS (sortLe sc) result

/-! ### Concrete record sets used as counterexamples and witnesses -/

/-- A well-formed base record (field values drawn from the generator's
vocabularies). -/
def baseRec : Defect :=
  ⟨1, "2025-01-01", "08:00", "Misalignment", "Assembly", "Door Panel", "John Smith",
   "BMW-1000", 5, "Base", "Long Range", "Race", "Morning", 1, "Yes", "Functional",
   false, "", ""⟩

/-- Seven records forming a single (defect, station, part) group — and a
single (station, shift) and (station, part) group — with severity sum 9 and
resolution-time sum 3.61 h.  The group's mean severity 9/7 and mean
resolution time 3.61/7 are not exactly representable at two decimals, which
separates scoring on rounded from scoring on full-precision averages. -/
def exData7 : List Defect :=
  [{ baseRec with id := 1, severityRating := 2, resolutionTime := 61/100 },
   { baseRec with id := 2, severityRating := 2, resolutionTime := 1/2 },
   { baseRec with id := 3, severityRating := 1, resolutionTime := 1/2 },
   { baseRec with id := 4, severityRating := 1, resolutionTime := 1/2 },
   { baseRec with id := 5, severityRating := 1, resolutionTime := 1/2 },
   { baseRec with id := 6, severityRating := 1, resolutionTime := 1/2 },
   { baseRec with id := 7, severityRating := 1, resolutionTime := 1/2 }]

/-- A severity-9 record: an outlier by the static critical rule. -/
def critRec : Defect :=
  { baseRec with severityRating := 9, defectCategory := "Critical", resolutionTime := 6 }

/-- Two records with distinct defect names, stations, parts and shifts. -/
def wData2 : List Defect :=
  [{ baseRec with
      id := 1,
      defectName := "Paint Defect",
      station := "Paint Shop",
      partOfCar := "Windshield",
      productionShift := "Night" },
   { baseRec with id := 2, severityRating := 7, resolutionTime := 3/2 }]

/-- The triad row of the one-record set `[baseRec]`. -/
def wTriadRow : TriadRow :=
  mkTriadRow (("Misalignment", "Assembly", "Door Panel"), ⟨1, 5, 1, 0⟩)

/-- The records of one (defect, station, part) triad group. -/
def triadGroup (data : List Defect) (n s p : String) : List Defect :=
  data.filter (fun d =>
    decide (d.defectName = n) && decide (d.station = s) && decide (d.partOfCar = p))

/-! ## Infrastructure lemmas -/

/-! ### Stable sort -/

theorem insertS_perm {α : Type} (le : α → α → Bool) (x : α) (l : List α) :
    (insertS le x l).Perm (x :: l) := by
  induction l with
  | nil => simp [insertS]
  | cons y ys ih =>
    by_cases h : le x y
    · simp [insertS, h]
    · simp only [insertS, h, if_false]
      exact (ih.cons y).trans (List.Perm.swap x y ys)

theorem sortS_perm {α : Type} (le : α → α → Bool) (l : List α) :
    (sortS le l).Perm l := by
  induction l with
  | nil => simp [sortS]
  | cons x xs ih => exact (insertS_perm le x (sortS le xs)).trans (ih.cons x)

theorem mem_sortS {α : Type} (le : α → α → Bool) (l : List α) (a : α) :
    a ∈ sortS le l ↔ a ∈ l :=
  (sortS_perm le l).mem_iff

theorem insertS_map {α β : Type} (le : α → α → Bool) (le' : β → β → Bool) (g : α → β)
    (h : ∀ a b, le' (g a) (g b) = le a b) (x : α) (l : List α) :
    insertS le' (g x) (l.map g) = (insertS le x l).map g := by
  induction l with
  | nil => simp [insertS]
  | cons y ys ih =>
    by_cases hxy : le x y
    · simp [insertS, hxy, h]
    · simp [insertS, hxy, h, ih]

theorem sortS_map {α β : Type} (le : α → α → Bool) (le' : β → β → Bool) (g : α → β)
    (h : ∀ a b, le' (g a) (g b) = le a b) (l : List α) :
    sortS le' (l.map g) = (sortS le l).map g := by
  induction l with
  | nil => simp [sortS]
  | cons x xs ih => simp only [List.map_cons, sortS, ih, insertS_map le le' g h]

theorem head?_take_succ {α : Type} (l : List α) (n : ℕ) :
    (l.take (n + 1)).head? = l.head? := by
  cases l <;> simp

/-! ### Association lists and `groupFold` -/

theorem upsert_ne_nil {κ ν : Type} [DecidableEq κ] (k : κ) (f : ν → ν) (v0 : ν)
    (l : List (κ × ν)) : upsert k f v0 l ≠ [] := by
  cases l with
  | nil => simp [upsert]
  | cons e rest =>
    obtain ⟨k', v⟩ := e
    by_cases h : k' = k <;> simp [upsert, h]

theorem alookup_upsert_self {κ ν : Type} [DecidableEq κ] (k : κ) (f : ν → ν) (v0 : ν)
    (l : List (κ × ν)) :
    alookup k (upsert k f v0 l) = some ((alookup k l).elim v0 f) := by
  induction l with
  | nil => simp [upsert, alookup]
  | cons e rest ih =>
    obtain ⟨k', v⟩ := e
    by_cases h : k' = k
    · simp [upsert, alookup, h]
    · simp [upsert, alookup, h, ih]

theorem alookup_upsert_ne {κ ν : Type} [DecidableEq κ] {k k' : κ} (h : k' ≠ k)
    (f : ν → ν) (v0 : ν) (l : List (κ × ν)) :
    alookup k (upsert k' f v0 l) = alookup k l := by
  induction l with
  | nil => simp [upsert, alookup, h]
  | cons e rest ih =>
    obtain ⟨k₁, v⟩ := e
    by_cases h1 : k₁ = k'
    · subst h1
      have h' : k₁ ≠ k := fun hh => h hh
      simp [upsert, alookup, h']
    · by_cases h2 : k₁ = k
      · subst h2
        simp [upsert, alookup, h1]
      · simp [upsert, alookup, h1, h2, ih]

theorem alookup_groupFold_aux {α κ ν : Type} [DecidableEq κ] (key : α → κ)
    (upd : ν → α → ν) (v0 : ν) (l : List α) :
    ∀ (acc : List (κ × ν)) (k : κ),
      alookup k
          (l.foldl (fun acc d => upsert (key d) (fun v => upd v d) (upd v0 d) acc) acc) =
        match alookup k acc with
        | some v => some ((l.filter (fun d => decide (key d = k))).foldl upd v)
        | none =>
          if (l.filter (fun d => decide (key d = k))).isEmpty then none
          else some ((l.filter (fun d => decide (key d = k))).foldl upd v0) := by
  induction l with
  | nil =>
    intro acc k
    cases h : alookup k acc <;> simp [h]
  | cons d rest ih =>
    intro acc k
    by_cases hk : key d = k
    · rw [List.foldl_cons, ih]
      have hup : alookup k (upsert (key d) (fun v => upd v d) (upd v0 d) acc) =
          some ((alookup k acc).elim (upd v0 d) (fun v => upd v d)) := by
        rw [hk]
        exact alookup_upsert_self k (fun v => upd v d) (upd v0 d) acc
      rw [hup]
      cases h : alookup k acc <;> simp [List.filter_cons, hk, h]
    · rw [List.foldl_cons, ih, alookup_upsert_ne hk]
      cases h : alookup k acc <;> simp [List.filter_cons, hk, h]

/-- The value `groupFold` associates to a key is the `upd`-fold of `v0` over
exactly the records with that key, and a key occurs iff some record has it. -/
theorem alookup_groupFold {α κ ν : Type} [DecidableEq κ] (key : α → κ)
    (upd : ν → α → ν) (v0 : ν) (data : List α) (k : κ) :
    alookup k (groupFold key upd v0 data) =
      if (data.filter (fun d => decide (key d = k))).isEmpty then none
      else some ((data.filter (fun d => decide (key d = k))).foldl upd v0) := by
  have h := alookup_groupFold_aux key upd v0 data [] k
  simpa [groupFold, alookup] using h

theorem keys_upsert {κ ν : Type} [DecidableEq κ] (k : κ) (f : ν → ν) (v0 : ν)
    (l : List (κ × ν)) :
    (upsert k f v0 l).map Prod.fst =
      if k ∈ l.map Prod.fst then l.map Prod.fst else l.map Prod.fst ++ [k] := by
  induction l with
  | nil => simp [upsert]
  | cons e rest ih =>
    obtain ⟨k', v⟩ := e
    by_cases h : k' = k
    · simp [upsert, h]
    · have hne : k ≠ k' := fun hh => h hh.symm
      by_cases hmem : k ∈ rest.map Prod.fst <;> simp [upsert, h, hne, hmem, ih]

theorem nodup_keys_upsert {κ ν : Type} [DecidableEq κ] (k : κ) (f : ν → ν) (v0 : ν)
    {l : List (κ × ν)} (h : (l.map Prod.fst).Nodup) :
    ((upsert k f v0 l).map Prod.fst).Nodup := by
  rw [keys_upsert]
  by_cases hmem : k ∈ l.map Prod.fst
  · simpa [hmem] using h
  · simp only [hmem, if_false]
    refine h.append (List.nodup_singleton k) ?_
    intro a ha
    simp only [List.mem_singleton]
    intro hk
    exact hmem (hk ▸ ha)

theorem nodup_keys_groupFold {α κ ν : Type} [DecidableEq κ] (key : α → κ)
    (upd : ν → α → ν) (v0 : ν) (data : List α) :
    ((groupFold key upd v0 data).map Prod.fst).Nodup := by
  unfold groupFold
  have h : ∀ (l : List α) (acc : List (κ × ν)), (acc.map Prod.fst).Nodup →
      ((l.foldl (fun acc d => upsert (key d) (fun v => upd v d) (upd v0 d) acc)
        acc).map Prod.fst).Nodup := by
    intro l
    induction l with
    | nil => intro acc hacc; simpa using hacc
    | cons d rest ih =>
      intro acc hacc
      exact ih _ (nodup_keys_upsert _ _ _ hacc)
  exact h data [] (by simp)

theorem alookup_of_mem_nodup {κ ν : Type} [DecidableEq κ] {l : List (κ × ν)} {k : κ}
    {v : ν} (h : (k, v) ∈ l) (hn : (l.map Prod.fst).Nodup) : alookup k l = some v := by
  induction l with
  | nil => simp at h
  | cons e rest ih =>
    obtain ⟨k₁, v₁⟩ := e
    rcases List.mem_cons.mp h with heq | hmem
    · obtain ⟨h1, h2⟩ := Prod.mk.injEq .. ▸ heq.symm
      simp [alookup, h1.symm, h2]
    · by_cases hk : k₁ = k
      · exfalso
        subst hk
        have : k₁ ∈ rest.map Prod.fst := List.mem_map.mpr ⟨(k₁, v), hmem, rfl⟩
        exact (List.nodup_cons.mp (by simpa using hn)).1 this
      · simp only [alookup, hk, if_false]
        exact ih hmem (List.nodup_cons.mp (by simpa using hn)).2

theorem groupFold_ne_nil {α κ ν : Type} [DecidableEq κ] (key : α → κ)
    (upd : ν → α → ν) (v0 : ν) {data : List α} (h : data ≠ []) :
    groupFold key upd v0 data ≠ [] := by
  unfold groupFold
  have haux : ∀ (l : List α) (acc : List (κ × ν)), acc ≠ [] →
      l.foldl (fun acc d => upsert (key d) (fun v => upd v d) (upd v0 d) acc) acc ≠ [] := by
    intro l
    induction l with
    | nil => intro acc hacc; simpa using hacc
    | cons d rest ih => intro acc _; exact ih _ (upsert_ne_nil _ _ _ _)
  cases data with
  | nil => exact absurd rfl h
  | cons d rest =>
    rw [List.foldl_cons]
    exact haux rest _ (upsert_ne_nil _ _ _ _)

/-! ### Fold characterisations of the accumulators -/

theorem foldl_count {α : Type} (l : List α) (n : ℕ) :
    l.foldl (fun n _ => n + 1) n = n + l.length := by
  induction l generalizing n with
  | nil => simp
  | cons d rest ih => simp [List.foldl_cons, ih]; omega

theorem foldl_triadUpd (l : List Defect) (a : TriadAcc) :
    l.foldl triadUpd a =
      ⟨a.count + l.length,
       a.sumSeverity + (l.map (fun d => d.severityRating)).sum,
       a.sumResH + (l.map (fun d => d.resolutionTime)).sum,
       a.rootCauseNo + l.countP (fun d => decide (d.rootCauseIdentified = "No"))⟩ := by
  induction l generalizing a with
  | nil => simp
  | cons d rest ih =>
    rw [List.foldl_cons, ih]
    simp only [triadUpd, List.length_cons, List.map_cons, List.sum_cons,
      List.countP_cons, TriadAcc.mk.injEq]
    refine ⟨by omega, by omega, by ring, ?_⟩
    by_cases hrc : d.rootCauseIdentified = "No" <;> simp [hrc] <;> omega

theorem foldl_pairUpd (l : List Defect) (a : PairAcc) :
    l.foldl pairUpd a =
      ⟨a.count + l.length,
       a.sumSev + (l.map (fun d => d.severityRating)).sum,
       a.sumResH + (l.map (fun d => d.resolutionTime)).sum⟩ := by
  induction l generalizing a with
  | nil => simp
  | cons d rest ih =>
    rw [List.foldl_cons, ih]
    simp only [pairUpd, List.length_cons, List.map_cons, List.sum_cons,
      PairAcc.mk.injEq]
    exact ⟨by omega, by omega, by ring⟩

/-! ### Sum of grouped counts -/

theorem sumSnd_upsert_incr {κ : Type} [DecidableEq κ] (k : κ) (l : List (κ × ℕ)) :
    ((upsert k (fun n => n + 1) 1 l).map Prod.snd).sum = (l.map Prod.snd).sum + 1 := by
  induction l with
  | nil => simp [upsert]
  | cons e rest ih =>
    obtain ⟨k', v⟩ := e
    by_cases h : k' = k
    · simp [upsert, h]; omega
    · simp [upsert, h, ih]; omega

theorem sumSnd_countEntries (key : Defect → String) (data : List Defect) :
    ((countEntries key data).map Prod.snd).sum = data.length := by
  unfold countEntries groupFold
  have haux : ∀ (l : List Defect) (acc : List (String × ℕ)),
      ((l.foldl (fun acc d => upsert (key d) (fun n => n + 1) 1 acc) acc).map
        Prod.snd).sum = (acc.map Prod.snd).sum + l.length := by
    intro l
    induction l with
    | nil => intro acc; simp
    | cons d rest ih =>
      intro acc
      rw [List.foldl_cons, ih, sumSnd_upsert_incr]
      simp only [List.length_cons]
      omega
  simpa using haux data []

/-! ### Partitioning a list by key values -/

theorem filter_length_split {α : Type} (p : α → Bool) (l : List α) :
    (l.filter p).length + (l.filter (fun a => !(p a))).length = l.length := by
  induction l with
  | nil => simp
  | cons a rest ih =>
    cases h : p a <;> simp [List.filter_cons, h] <;> omega

/-- Summing the sizes of the fibres of `g` over a duplicate-free list of keys
covering every element gives back the length. -/
theorem length_eq_sum_fibres {α κ : Type} [DecidableEq κ] (g : α → κ) :
    ∀ (ks : List κ) (l : List α), ks.Nodup → (∀ a ∈ l, g a ∈ ks) →
      (ks.map (fun k => (l.filter (fun a => decide (g a = k))).length)).sum = l.length := by
  intro ks
  induction ks with
  | nil =>
    intro l _ hcov
    cases l with
    | nil => simp
    | cons a rest => exact absurd (hcov a (by simp)) (by simp)
  | cons k ks' ih =>
    intro l hnd hcov
    have hknotin : k ∉ ks' := (List.nodup_cons.mp hnd).1
    have hstep : ∀ k' ∈ ks',
        (l.filter (fun a => decide (g a = k'))).length =
          ((l.filter (fun a => !(decide (g a = k)))).filter
            (fun a => decide (g a = k'))).length := by
      intro k' hk'
      have hkk : k' ≠ k := fun hh => hknotin (hh ▸ hk')
      rw [List.filter_filter]
      congr 1
      refine List.filter_congr ?_
      intro a _
      by_cases hg : g a = k'
      · simp [hg, hkk]
      · simp [hg]
    have hcov' : ∀ a ∈ l.filter (fun a => !(decide (g a = k))), g a ∈ ks' := by
      intro a ha
      obtain ⟨hal, hne⟩ := List.mem_filter.mp ha
      have hne' : g a ≠ k := by simpa using hne
      rcases List.mem_cons.mp (hcov a hal) with h1 | h1
      · exact absurd h1 hne'
      · exact h1
    rw [List.map_cons, List.sum_cons, List.map_congr_left hstep,
      ih (l.filter (fun a => !(decide (g a = k)))) (List.nodup_cons.mp hnd).2 hcov']
    exact filter_length_split _ l

/-! ### `firstKeys` -/

theorem firstKeys_nodup {κ : Type} [DecidableEq κ] (l : List κ) :
    (firstKeys l).Nodup := by
  induction l with
  | nil => simp [firstKeys]
  | cons k rest ih =>
    refine List.nodup_cons.mpr ⟨?_, ih.filter _⟩
    intro hmem
    have := (List.mem_filter.mp hmem).2
    simp at this

theorem mem_firstKeys {κ : Type} [DecidableEq κ] {a : κ} {l : List κ} (h : a ∈ l) :
    a ∈ firstKeys l := by
  induction l with
  | nil => simp at h
  | cons k rest ih =>
    rcases List.mem_cons.mp h with h1 | h1
    · exact h1 ▸ List.mem_cons_self _ _
    · by_cases hak : a = k
      · exact hak ▸ List.mem_cons_self _ _
      · exact List.mem_cons_of_mem _ (List.mem_filter.mpr ⟨ih h1, by simp [hak]⟩)

/-! ### Rounding -/

theorem round2_mono {a b : ℚ} (h : a ≤ b) : round2 a ≤ round2 b := by
  unfold round2
  have hr : round (a * 100) ≤ round (b * 100) := by
    rw [round_eq, round_eq]
    exact Int.floor_le_floor (by linarith)
  have hc : ((round (a * 100) : ℤ) : ℚ) ≤ ((round (b * 100) : ℤ) : ℚ) :=
    Int.cast_le.mpr hr
  exact div_le_div_of_nonneg_right hc (by norm_num)

/-! ### Variance is nonnegative -/

theorem variance_nonneg {vals : List ℚ} {s : MetricStats}
    (h : calcMetricStats vals = some s) : 0 ≤ s.variance := by
  obtain ⟨sm, sv⟩ := s
  by_cases hlen : vals.length = 0
  · simp [calcMetricStats, jsDivLen, hlen] at h
  · simp only [calcMetricStats, jsDivLen, hlen, if_false, Option.some_bind,
      Option.map_some', Option.some.injEq, MetricStats.mk.injEq] at h
    have hvar : sv =
        ((vals.map (fun v => (v - vals.sum / vals.length) ^ 2)).sum) / vals.length :=
      h.2.symm
    rw [hvar]
    show (0 : ℚ) ≤ _
    refine div_nonneg ?_ (by positivity)
    refine List.sum_nonneg ?_
    intro x hx
    obtain ⟨v, _, rfl⟩ := List.mem_map.mp hx
    positivity

/-! ### The square-root-free bound tests agree with the real-valued bounds -/

/-- `gtUpperB` is exactly the source's `x > mean + k·stdDev` with
`stdDev = √variance`, read over the reals. -/
theorem gtUpperB_iff_real (x : ℚ) (s : MetricStats) (k : ℚ) (hk : 0 ≤ k)
    (hv : 0 ≤ s.variance) :
    gtUpperB x (some s) k = true ↔
      (s.mean : ℝ) + (k : ℝ) * Real.sqrt (s.variance : ℝ) < (x : ℝ) := by
  have hv' : (0 : ℝ) ≤ (s.variance : ℝ) := by exact_mod_cast hv
  have hk' : (0 : ℝ) ≤ (k : ℝ) := by exact_mod_cast hk
  have hkv : (0 : ℝ) ≤ (k : ℝ) * Real.sqrt (s.variance : ℝ) :=
    mul_nonneg hk' (Real.sqrt_nonneg _)
  simp only [gtUpperB, Bool.and_eq_true, decide_eq_true_eq]
  constructor
  · rintro ⟨hm, hlt⟩
    have hm' : (s.mean : ℝ) < (x : ℝ) := by exact_mod_cast hm
    have hlt' : ((k : ℝ)) ^ 2 * (s.variance : ℝ) <
        ((x : ℝ) - (s.mean : ℝ)) ^ 2 := by exact_mod_cast hlt
    have hsq : ((k : ℝ) * Real.sqrt (s.variance : ℝ)) ^ 2 <
        ((x : ℝ) - (s.mean : ℝ)) ^ 2 := by
      rw [mul_pow, Real.sq_sqrt hv']
      exact hlt'
    have := lt_of_pow_lt_pow_left₀ 2 (by linarith) hsq
    linarith
  · intro h
    have hm' : (s.mean : ℝ) < (x : ℝ) := by linarith
    have hdiff : (k : ℝ) * Real.sqrt (s.variance : ℝ) <
        (x : ℝ) - (s.mean : ℝ) := by linarith
    have hsq : ((k : ℝ) * Real.sqrt (s.variance : ℝ)) ^ 2 <
        ((x : ℝ) - (s.mean : ℝ)) ^ 2 :=
      pow_lt_pow_left₀ hdiff hkv (by norm_num)
    rw [mul_pow, Real.sq_sqrt hv'] at hsq
    refine ⟨by exact_mod_cast hm', ?_⟩
    exact_mod_cast hsq

/-- `ltLowerB` is exactly the source's `x < mean − k·stdDev` with
`stdDev = √variance`, read over the reals. -/
theorem ltLowerB_iff_real (x : ℚ) (s : MetricStats) (k : ℚ) (hk : 0 ≤ k)
    (hv : 0 ≤ s.variance) :
    ltLowerB x (some s) k = true ↔
      (x : ℝ) < (s.mean : ℝ) - (k : ℝ) * Real.sqrt (s.variance : ℝ) := by
  have hv' : (0 : ℝ) ≤ (s.variance : ℝ) := by exact_mod_cast hv
  have hk' : (0 : ℝ) ≤ (k : ℝ) := by exact_mod_cast hk
  have hkv : (0 : ℝ) ≤ (k : ℝ) * Real.sqrt (s.variance : ℝ) :=
    mul_nonneg hk' (Real.sqrt_nonneg _)
  simp only [ltLowerB, Bool.and_eq_true, decide_eq_true_eq]
  constructor
  · rintro ⟨hm, hlt⟩
    have hm' : (x : ℝ) < (s.mean : ℝ) := by exact_mod_cast hm
    have hlt' : ((k : ℝ)) ^ 2 * (s.variance : ℝ) <
        ((s.mean : ℝ) - (x : ℝ)) ^ 2 := by exact_mod_cast hlt
    have hsq : ((k : ℝ) * Real.sqrt (s.variance : ℝ)) ^ 2 <
        ((s.mean : ℝ) - (x : ℝ)) ^ 2 := by
      rw [mul_pow, Real.sq_sqrt hv']
      exact hlt'
    have := lt_of_pow_lt_pow_left₀ 2 (by linarith) hsq
    linarith
  · intro h
    have hm' : (x : ℝ) < (s.mean : ℝ) := by linarith
    have hdiff : (k : ℝ) * Real.sqrt (s.variance : ℝ) <
        (s.mean : ℝ) - (x : ℝ) := by linarith
    have hsq : ((k : ℝ) * Real.sqrt (s.variance : ℝ)) ^ 2 <
        ((s.mean : ℝ) - (x : ℝ)) ^ 2 :=
      pow_lt_pow_left₀ hdiff hkv (by norm_num)
    rw [mul_pow, Real.sq_sqrt hv'] at hsq
    refine ⟨by exact_mod_cast hm', ?_⟩
    exact_mod_cast hsq

/-! ### Threshold antitonicity of the bound tests -/

theorem gtUpperB_antitone {x : ℚ} {s : Option MetricStats} {k₁ k₂ : ℚ} (hk : 0 ≤ k₁)
    (h12 : k₁ ≤ k₂) (hvar : ∀ st, s = some st → 0 ≤ st.variance) :
    gtUpperB x s k₂ = true → gtUpperB x s k₁ = true := by
  cases s with
  | none => simp [gtUpperB]
  | some st =>
    intro h
    simp only [gtUpperB, Bool.and_eq_true, decide_eq_true_eq] at h ⊢
    obtain ⟨hmean, hlt⟩ := h
    refine ⟨hmean, lt_of_le_of_lt ?_ hlt⟩
    have h2 : k₁ ^ 2 ≤ k₂ ^ 2 := pow_le_pow_left₀ hk h12 2
    exact mul_le_mul_of_nonneg_right h2 (hvar st rfl)

theorem ltLowerB_antitone {x : ℚ} {s : Option MetricStats} {k₁ k₂ : ℚ} (hk : 0 ≤ k₁)
    (h12 : k₁ ≤ k₂) (hvar : ∀ st, s = some st → 0 ≤ st.variance) :
    ltLowerB x s k₂ = true → ltLowerB x s k₁ = true := by
  cases s with
  | none => simp [ltLowerB]
  | some st =>
    intro h
    simp only [ltLowerB, Bool.and_eq_true, decide_eq_true_eq] at h ⊢
    obtain ⟨hmean, hlt⟩ := h
    refine ⟨hmean, lt_of_le_of_lt ?_ hlt⟩
    have h2 : k₁ ^ 2 ≤ k₂ ^ 2 := pow_le_pow_left₀ hk h12 2
    exact mul_le_mul_of_nonneg_right h2 (hvar st rfl)

/-- The score stored in a triad row, in terms of the group sums. -/
theorem mkTriadRow_score (e : (String × String × String) × TriadAcc) :
    (mkTriadRow e).score = triadScoreFromSums e.2.count e.2.sumSeverity e.2.sumResH :=
  rfl

/-! ## Claims -/

/-- C1: for the empty record set, the Pareto computation does return empty row
lists (its `data.length || 1` guard), but `calculateOutliers` has no N = 0
guard: both per-metric statistics are the unguarded `0/0` — `NaN`, modelled
as `none` — rather than well-defined zero/degenerate mean, stdDev and
bounds.  This contradicts the spec's requirement that outlier-bound
computations guard N = 0 explicitly. -/
theorem empty_set_outlier_stats_are_nan :
    resStats [] = none ∧ sevStats [] = none ∧
    defectsPareto [] = [] ∧ partsPareto [] = [] :=
  ⟨rfl, rfl, rfl, rfl⟩

/-- C4 counterexample: a mutation referencing an absent id produces no
not-found signal whatsoever.  The handlers' entire output is the new record
array: on the one-record set `[baseRec]` (whose only id is 1), the
`handleNoteUpdate` call with the absent id 2 returns the very same array as
a call with the present id 1, and `handleFlag` with the absent id returns
the input unchanged — an absent-id call is observationally identical to a
present-id call (resp. to not calling at all), so no caller can recover a
not-found signal from it. -/
theorem mutation_absent_id_no_signal_cex :
    handleNoteUpdate [baseRec] 2 "" = handleNoteUpdate [baseRec] 1 "" ∧
    handleFlag [baseRec] 2 = [baseRec] := by
  constructor
  · decide
  · decide

/-- C4 (amended): a mutation referencing an id absent from the record set
leaves the record set unchanged — a silent no-op; no explicit not-found
signal is reported to the caller. -/
theorem mutation_absent_id_noop (data : List Defect) (id : ℕ) (note : String)
    (h : ∀ d ∈ data, d.id ≠ id) :
    handleFlag data id = data ∧ handleNoteUpdate data id note = data := by
  constructor
  · unfold handleFlag
    rw [List.map_congr_left (g := fun d => d) (fun d hd => by simp [h d hd])]
    exact List.map_id _
  · unfold handleNoteUpdate
    rw [List.map_congr_left (g := fun d => d) (fun d hd => by simp [h d hd])]
    exact List.map_id _

/-- Witness for C4 (amended) at the concrete set `[baseRec]` and absent id 2. -/
theorem mutation_absent_id_noop_witness :
    handleFlag [baseRec] 2 = [baseRec] ∧ handleNoteUpdate [baseRec] 2 "x" = [baseRec] :=
  mutation_absent_id_noop [baseRec] 2 "x" (by decide)

/-- C5: `isOutlier` is monotonic in the threshold `k` on the valid range
[1, 3]: a record that is not an outlier at `k₁` is still not an outlier at
any larger `k₂` in range, and a record flagged by the static severity ≥ 8
rule is an outlier at every threshold in range. -/
theorem isOutlier_threshold_monotone (data : List Defect) (r : Defect) (k₁ k₂ : ℚ)
    (hr : r ∈ data) (h1 : 1 ≤ k₁) (h12 : k₁ ≤ k₂) (h3 : k₂ ≤ 3) :
    (isOutlier data k₁ r = false → isOutlier data k₂ r = false) ∧
    (8 ≤ r.severityRating → isOutlier data k₁ r = true) := by
  have hk1 : (0 : ℚ) ≤ k₁ := le_trans zero_le_one h1
  constructor
  · intro hfalse
    cases hcase : isOutlier data k₂ r
    · rfl
    · exfalso
      have htrue : isOutlier data k₁ r = true := by
        simp only [isOutlier, Bool.or_eq_true] at hcase ⊢
        rcases hcase with ((h | h) | h) | h
        · exact Or.inl (Or.inl (Or.inl
            (gtUpperB_antitone hk1 h12 (fun st hst => variance_nonneg hst) h)))
        · exact Or.inl (Or.inl (Or.inr
            (ltLowerB_antitone hk1 h12 (fun st hst => variance_nonneg hst) h)))
        · exact Or.inl (Or.inr
            (gtUpperB_antitone hk1 h12 (fun st hst => variance_nonneg hst) h))
        · exact Or.inr h
      rw [hfalse] at htrue
      exact Bool.false_ne_true htrue
  · intro hsev
    simp [isOutlier, hsev]

/-- Witness for C5: the one-record set `[critRec]` (severity 9) at thresholds
k₁ = 1, k₂ = 2. -/
theorem isOutlier_threshold_monotone_witness :
    (isOutlier [critRec] 1 critRec = false → isOutlier [critRec] 2 critRec = false) ∧
    (8 ≤ critRec.severityRating → isOutlier [critRec] 1 critRec = true) :=
  isOutlier_threshold_monotone [critRec] critRec 1 2 (by decide) (by norm_num)
    (by norm_num) (by norm_num)

/-- C2 counterexample: on `exData7` (one triad group of 7 records, severity
sum 9, resolution-time sum 3.61 h) the triad score produced by the code is
4.67, but the claimed formula — two-decimal rounding applied only to the
final score, with the full-precision arithmetic means entering the formula —
gives 4.66.  The code rounds the averages to two decimals before they enter
the score computation. -/
theorem triad_score_not_full_precision_cex :
    (triads exData7).byScore.map TriadRow.score = [467/100] ∧
    round2 ((exData7.length : ℚ) * (6/10 + 4/10 *
        (((exData7.map (fun d => (d.severityRating : ℚ))).sum / exData7.length) / 10)) +
      2/10 * ((exData7.map (fun d => d.resolutionTime)).sum / exData7.length)) =
      466/100 ∧
    (467/100 : ℚ) ≠ 466/100 := by
  refine ⟨?_, ?_, by norm_num⟩
  · norm_num [triads, triadRows, groupFold, upsert, triadKey, triadUpd, triadAcc0,
      mkTriadRow, sortS, insertS, exData7, baseRec, round2, round_eq]
  · norm_num [exData7, baseRec, round2, round_eq]

/-- C3 (amended): the quick-action scoring applies the shared impact formula
to the full-precision group averages and rounds once, whereas the triads
scoring applies it to the two-decimal-rounded averages; the two scorings
coincide on every group whose average severity and average resolution time
are exactly representable at two decimals. -/
theorem quick_score_eq_triad_score_on_exact_averages (c sumSev : ℕ) (sumRes : ℚ)
    (h1 : round2 ((sumSev : ℚ) / c) = (sumSev : ℚ) / c)
    (h2 : round2 (sumRes / c) = sumRes / c) :
    quickScoreFromSums c sumSev sumRes = triadScoreFromSums c sumSev sumRes := by
  unfold quickScoreFromSums triadScoreFromSums
  rw [h1, h2]

/-- Witness for C3 (amended): a group with count 2, severity sum 8,
resolution-time sum 3 (averages 4 and 1.5, both exact at two decimals). -/
theorem quick_score_eq_triad_score_on_exact_averages_witness :
    quickScoreFromSums 2 8 3 = triadScoreFromSums 2 8 3 :=
  quick_score_eq_triad_score_on_exact_averages 2 8 3
    (by norm_num [round2, round_eq]) (by norm_num [round2, round_eq])

/-- C3 counterexample: on `exData7`, whose seven records form a single
(station, shift) and a single (station, part) composite group — the same
underlying record group as the single triad — both quick-action candidates
score 4.66 while the triad score of that group is 4.67: the two scorings are
not equal as functions of a group's records/aggregates. -/
theorem quick_vs_triad_pipeline_cex :
    (quickActions exData7 "Misalignment").map Cand.score = [466/100, 466/100] ∧
    (triads exData7).byScore.map TriadRow.score = [467/100] ∧
    ((466 : ℚ)/100 ≠ 467/100) := by
  refine ⟨?_, ?_, by norm_num⟩
  · norm_num [quickActions, groupFold, upsert, pairUpd, mkCandSS, mkCandSP,
      quickScoreFromSums, sortS, insertS, exData7, baseRec, round2, round_eq]
  · norm_num [triads, triadRows, groupFold, upsert, triadKey, triadUpd, triadAcc0,
      mkTriadRow, sortS, insertS, exData7, baseRec, round2, round_eq]

/-- C8: position by position — flagging an unflagged record sets
`flagged = true` and `status = "Under Review"`; unflagging a flagged record
sets `flagged = false` and `status = ""`; records with a different id are
untouched; and `handleNoteUpdate` changes only the `note` field of the
matching record (the `{ _ with … }` updates leave every other field
unchanged). -/
theorem flag_note_field_semantics (data : List Defect) (id : ℕ) (note : String)
    (i : ℕ) (h1 : i < data.length) (h2 : i < (handleFlag data id).length)
    (h3 : i < (handleNoteUpdate data id note).length) :
    ((data.get ⟨i, h1⟩).id = id → (data.get ⟨i, h1⟩).flagged = false →
      (handleFlag data id).get ⟨i, h2⟩ =
        { data.get ⟨i, h1⟩ with flagged := true, status := "Under Review" }) ∧
    ((data.get ⟨i, h1⟩).id = id → (data.get ⟨i, h1⟩).flagged = true →
      (handleFlag data id).get ⟨i, h2⟩ =
        { data.get ⟨i, h1⟩ with flagged := false, status := "" }) ∧
    ((data.get ⟨i, h1⟩).id ≠ id →
      (handleFlag data id).get ⟨i, h2⟩ = data.get ⟨i, h1⟩) ∧
    ((data.get ⟨i, h1⟩).id = id →
      (handleNoteUpdate data id note).get ⟨i, h3⟩ =
        { data.get ⟨i, h1⟩ with note := note }) ∧
    ((data.get ⟨i, h1⟩).id ≠ id →
      (handleNoteUpdate data id note).get ⟨i, h3⟩ = data.get ⟨i, h1⟩) := by
  refine ⟨?_, ?_, ?_, ?_, ?_⟩
  · intro hid hfl
    simp only [List.get_eq_getElem] at hid hfl ⊢
    simp [handleFlag, List.getElem_map, hid, hfl]
  · intro hid hfl
    simp only [List.get_eq_getElem] at hid hfl ⊢
    simp [handleFlag, List.getElem_map, hid, hfl]
  · intro hid
    simp only [List.get_eq_getElem] at hid ⊢
    simp [handleFlag, List.getElem_map, hid]
  · intro hid
    simp only [List.get_eq_getElem] at hid ⊢
    simp [handleNoteUpdate, List.getElem_map, hid]
  · intro hid
    simp only [List.get_eq_getElem] at hid ⊢
    simp [handleNoteUpdate, List.getElem_map, hid]

/-- Witness for C8 at the one-record set `[baseRec]` (unflagged, id 1),
position 0, with id 1 and note "checked". -/
theorem flag_note_field_semantics_witness :
    (([baseRec].get ⟨0, by decide⟩).id = 1 →
      ([baseRec].get ⟨0, by decide⟩).flagged = false →
      (handleFlag [baseRec] 1).get ⟨0, by decide⟩ =
        { [baseRec].get ⟨0, by decide⟩ with
            flagged := true,
            status := "Under Review" }) ∧
    (([baseRec].get ⟨0, by decide⟩).id = 1 →
      ([baseRec].get ⟨0, by decide⟩).flagged = true →
      (handleFlag [baseRec] 1).get ⟨0, by decide⟩ =
        { [baseRec].get ⟨0, by decide⟩ with flagged := false, status := "" }) ∧
    (([baseRec].get ⟨0, by decide⟩).id ≠ 1 →
      (handleFlag [baseRec] 1).get ⟨0, by decide⟩ = [baseRec].get ⟨0, by decide⟩) ∧
    (([baseRec].get ⟨0, by decide⟩).id = 1 →
      (handleNoteUpdate [baseRec] 1 "checked").get ⟨0, by decide⟩ =
        { [baseRec].get ⟨0, by decide⟩ with note := "checked" }) ∧
    (([baseRec].get ⟨0, by decide⟩).id ≠ 1 →
      (handleNoteUpdate [baseRec] 1 "checked").get ⟨0, by decide⟩ =
        [baseRec].get ⟨0, by decide⟩) :=
  flag_note_field_semantics [baseRec] 1 "checked" 0 (by decide) (by decide) (by decide)

/-- C9: the filtered view contains exactly the records some field string of
which contains the search term case-insensitively, intersected — when the
outliers-only toggle is on — with the records satisfying `isOutlier`; this
holds for every sort configuration.  In particular a term contained in a
reporter's name (case-insensitively) matches every record by that
reporter. -/
theorem filtered_search_membership (data : List Defect) (k : ℚ) (term : String)
    (oo : Bool) (sc : Option SortConfig) (r : Defect) :
    (r ∈ filteredView data k term oo sc ↔
      r ∈ data ∧ matchesSearch term r = true ∧
        (oo = true → isOutlier data k r = true)) ∧
    (containsCI r.reporter term = true → r ∈ data →
      r ∈ filteredView data k term false none) := by
  constructor
  · unfold filteredView
    cases sc with
    | none =>
      cases oo <;> simp [List.mem_filter] <;> tauto
    | some sc =>
      rw [mem_sortS]
      cases oo <;> simp [List.mem_filter] <;> tauto
  · intro hci hmem
    have hmatch : matchesSearch term r = true := by
      unfold matchesSearch
      refine List.any_eq_true.mpr ⟨r.reporter, ?_, hci⟩
      simp [fieldStrings]
    simp [filteredView, List.mem_filter, hmem, hmatch]

/-- Witness for C9: `[baseRec]` with term "smith" (a substring of the
reporter "John Smith"), outliers off, no sort. -/
theorem filtered_search_membership_witness :
    (baseRec ∈ filteredView [baseRec] 2 "smith" false none ↔
      baseRec ∈ [baseRec] ∧ matchesSearch "smith" baseRec = true ∧
        (false = true → isOutlier [baseRec] 2 baseRec = true)) ∧
    (containsCI baseRec.reporter "smith" = true → baseRec ∈ [baseRec] →
      baseRec ∈ filteredView [baseRec] 2 "smith" false none) :=
  filtered_search_membership [baseRec] 2 "smith" false none baseRec

/-- C10: on a non-empty record set, the Recurrence Explorer's default target,
the first entry of the heatmap's top-defect list, and the first row of the
defect-name Pareto name the same defect: all three count defect names over
the same record order and take the head of the same stable
descending-by-count sort. -/
theorem top_defect_selections_agree (data : List Defect) (h : data ≠ []) :
    ∃ t, explorerDefaultTarget data = some t ∧
      (topDefects data).head? = some t ∧
      ((defectsPareto data).map ParetoRow.name).head? = some t := by
  have hne : sortS (leCountDesc Prod.snd) (countEntries (fun d => d.defectName) data)
      ≠ [] := by
    intro hnil
    have hperm := sortS_perm (leCountDesc Prod.snd)
      (countEntries (fun d => d.defectName) data)
    rw [hnil] at hperm
    have hce : countEntries (fun d => d.defectName) data = [] :=
      (List.Perm.nil_eq hperm).symm
    unfold countEntries at hce
    exact groupFold_ne_nil (fun d => d.defectName) (fun n _ => n + 1) 0 h hce
  obtain ⟨e, rest, hsort⟩ := List.exists_cons_of_ne_nil hne
  refine ⟨e.fst, ?_, ?_, ?_⟩
  · unfold explorerDefaultTarget
    rw [hsort]
    rfl
  · unfold topDefects
    rw [hsort]
    rfl
  · unfold defectsPareto
    rw [hsort]
    obtain ⟨n, c⟩ := e
    rfl

/-- Witness for C10 at the two-record set `wData2`. -/
theorem top_defect_selections_agree_witness :
    ∃ t, explorerDefaultTarget wData2 = some t ∧
      (topDefects wData2).head? = some t ∧
      ((defectsPareto wData2).map ParetoRow.name).head? = some t :=
  top_defect_selections_agree wData2 (by decide)

theorem getLast?_cons_ne {α : Type} (x : α) {xs : List α} (h : xs ≠ []) :
    (x :: xs).getLast? = xs.getLast? := by
  cases xs with
  | nil => exact absurd rfl h
  | cons b l => rfl

theorem cumRows_cumPct_lower (total : ℚ) (htotal : 0 < total) :
    ∀ (l : List (String × ℕ)) (acc : ℕ) (y : ℚ),
      y ∈ (cumRows total acc l).map ParetoRow.cumPct →
      round2 (((acc : ℚ) / total) * 100) ≤ y := by
  intro l
  induction l with
  | nil =>
    intro acc y hy
    simp [cumRows] at hy
  | cons e rest ih =>
    intro acc y hy
    obtain ⟨n, c⟩ := e
    simp only [cumRows, List.map_cons, List.mem_cons] at hy
    have hstep : round2 (((acc : ℚ) / total) * 100) ≤
        round2 ((((acc + c : ℕ) : ℚ) / total) * 100) := by
      refine round2_mono ?_
      have hle : ((acc : ℚ)) ≤ ((acc + c : ℕ) : ℚ) :=
        Nat.cast_le.mpr (Nat.le_add_right _ _)
      have hdiv : (acc : ℚ) / total ≤ ((acc + c : ℕ) : ℚ) / total :=
        div_le_div_of_nonneg_right hle (le_of_lt htotal)
      exact mul_le_mul_of_nonneg_right hdiv (by norm_num)
    rcases hy with rfl | hy
    · exact hstep
    · exact le_trans hstep (ih (acc + c) y hy)

theorem cumRows_cumPct_sorted (total : ℚ) (htotal : 0 < total) :
    ∀ (l : List (String × ℕ)) (acc : ℕ),
      ((cumRows total acc l).map ParetoRow.cumPct).Sorted (· ≤ ·) := by
  intro l
  induction l with
  | nil => intro acc; simp [cumRows]
  | cons e rest ih =>
    intro acc
    obtain ⟨n, c⟩ := e
    simp only [cumRows, List.map_cons]
    refine List.sorted_cons.mpr ⟨?_, ih (acc + c)⟩
    intro y hy
    exact cumRows_cumPct_lower total htotal rest (acc + c) y hy

theorem cumRows_cumPct_getLast (total : ℚ) :
    ∀ (l : List (String × ℕ)) (acc : ℕ), l ≠ [] →
      ((cumRows total acc l).map ParetoRow.cumPct).getLast? =
        some (round2 ((((acc + (l.map Prod.snd).sum : ℕ) : ℚ) / total) * 100)) := by
  intro l
  induction l with
  | nil => intro acc h; exact absurd rfl h
  | cons e rest ih =>
    intro acc _
    obtain ⟨n, c⟩ := e
    cases hre : rest with
    | nil => simp [cumRows, hre]
    | cons e2 rest2 =>
      have hne : rest ≠ [] := by rw [hre]; simp
      have hmapne : (cumRows total (acc + c) rest).map ParetoRow.cumPct ≠ [] := by
        rw [hre]
        obtain ⟨n2, c2⟩ := e2
        simp [cumRows]
      rw [← hre]
      simp only [cumRows, List.map_cons]
      rw [getLast?_cons_ne _ hmapne, ih (acc + c) hne]
      simp only [List.sum_cons]
      have harith : acc + c + (rest.map Prod.snd).sum =
          acc + (c + (rest.map Prod.snd).sum) := by omega
      rw [harith]

theorem round2_100 : round2 (100 : ℚ) = 100 := by
  norm_num [round2, round_eq]

/-- The C6 property for one Pareto dimension built from a key extractor. -/
theorem pareto_cumPct_generic (key : Defect → String) (data : List Defect)
    (h : data ≠ []) :
    ((cumRows (paretoTotal data) 0
        (sortS (leCountDesc Prod.snd) (countEntries key data))).map
      ParetoRow.cumPct).Sorted (· ≤ ·) ∧
    ((cumRows (paretoTotal data) 0
        (sortS (leCountDesc Prod.snd) (countEntries key data))).map
      ParetoRow.cumPct).getLast? = some 100 := by
  have hlen : data.length ≠ 0 := fun hh => h (List.eq_nil_of_length_eq_zero hh)
  have htotal : paretoTotal data = (data.length : ℚ) := by
    simp [paretoTotal, hlen]
  have hpos : 0 < paretoTotal data := by
    rw [htotal]
    exact_mod_cast Nat.pos_of_ne_zero hlen
  constructor
  · exact cumRows_cumPct_sorted _ hpos _ 0
  · have hsortne : sortS (leCountDesc Prod.snd) (countEntries key data) ≠ [] := by
      intro hnil
      have hperm := sortS_perm (leCountDesc Prod.snd) (countEntries key data)
      rw [hnil] at hperm
      have hce : countEntries key data = [] := (List.Perm.nil_eq hperm).symm
      unfold countEntries at hce
      exact groupFold_ne_nil key (fun n _ => n + 1) 0 h hce
    rw [cumRows_cumPct_getLast _ _ 0 hsortne]
    have hsum : ((sortS (leCountDesc Prod.snd) (countEntries key data)).map
        Prod.snd).sum = data.length := by
      have hperm := (sortS_perm (leCountDesc Prod.snd) (countEntries key data)).map
        Prod.snd
      rw [hperm.sum_eq, sumSnd_countEntries]
    rw [hsum, htotal, Nat.zero_add]
    have hdiv : ((data.length : ℕ) : ℚ) / (data.length : ℚ) = 1 :=
      div_self (by exact_mod_cast hlen)
    rw [hdiv, one_mul, round2_100]

/-- C6: for a non-empty record set the cumulative percentage of both Pareto
views is non-decreasing from the first rank to the last, and the final
rank's cumulative percentage is exactly 100.00 (the final prefix sum is the
whole record count, and `total = data.length`). -/
theorem pareto_cumPct_monotone_and_final (data : List Defect) (h : data ≠ []) :
    (((defectsPareto data).map ParetoRow.cumPct).Sorted (· ≤ ·) ∧
      ((defectsPareto data).map ParetoRow.cumPct).getLast? = some 100) ∧
    (((partsPareto data).map ParetoRow.cumPct).Sorted (· ≤ ·) ∧
      ((partsPareto data).map ParetoRow.cumPct).getLast? = some 100) :=
  ⟨pareto_cumPct_generic (fun d => d.defectName) data h,
   pareto_cumPct_generic (fun d => d.partOfCar) data h⟩

/-- Witness for C6 at the two-record set `wData2`. -/
theorem pareto_cumPct_monotone_and_final_witness :
    (((defectsPareto wData2).map ParetoRow.cumPct).Sorted (· ≤ ·) ∧
      ((defectsPareto wData2).map ParetoRow.cumPct).getLast? = some 100) ∧
    (((partsPareto wData2).map ParetoRow.cumPct).Sorted (· ≤ ·) ∧
      ((partsPareto wData2).map ParetoRow.cumPct).getLast? = some 100) :=
  pareto_cumPct_monotone_and_final wData2 (by decide)

/-- C2 (amended): every row of the triads byScore view carries the size of its
(defect, station, part) group as its count, and its score is the weighted
formula applied to the TWO-DECIMAL-ROUNDED arithmetic means of that group
(the code rounds `avgSeverity` and `avgResH` before they enter the score
computation), rounded again at the end. -/
theorem triad_score_from_rounded_averages (data : List Defect) (row : TriadRow)
    (hrow : row ∈ (triads data).byScore) :
    row.count = (triadGroup data row.defectName row.station row.partOfCar).length ∧
    row.score = round2
      (((triadGroup data row.defectName row.station row.partOfCar).length : ℚ) *
        (6/10 + 4/10 *
          (round2 (((triadGroup data row.defectName row.station
              row.partOfCar).map (fun d => (d.severityRating : ℚ))).sum /
            ((triadGroup data row.defectName row.station row.partOfCar).length : ℚ))
            / 10)) +
      2/10 * round2 (((triadGroup data row.defectName row.station
          row.partOfCar).map (fun d => d.resolutionTime)).sum /
        ((triadGroup data row.defectName row.station row.partOfCar).length : ℚ))) := by
  have hmem : row ∈ triadRows data :=
    (mem_sortS (fun a b => decide (b.score ≤ a.score)) (triadRows data) row).mp
      (by simpa [triads] using hrow)
  obtain ⟨e, he, hrowe⟩ := List.mem_map.mp hmem
  obtain ⟨⟨n, s, p⟩, acc⟩ := e
  subst hrowe
  have hlook := alookup_of_mem_nodup he
    (nodup_keys_groupFold triadKey triadUpd triadAcc0 data)
  rw [alookup_groupFold] at hlook
  have hfilter : data.filter (fun d => decide (triadKey d = (n, s, p))) =
      triadGroup data n s p := by
    unfold triadGroup
    refine List.filter_congr ?_
    intro d _
    by_cases h1 : d.defectName = n
    · by_cases h2 : d.station = s
      · by_cases h3 : d.partOfCar = p
        · simp [triadKey, h1, h2, h3, Prod.ext_iff]
        · simp [triadKey, h1, h2, h3, Prod.ext_iff]
      · simp [triadKey, h1, h2, Prod.ext_iff]
    · simp [triadKey, h1, Prod.ext_iff]
  rw [hfilter] at hlook
  by_cases hemp : (triadGroup data n s p).isEmpty
  · rw [if_pos hemp] at hlook
    exact absurd hlook (by simp)
  · rw [if_neg hemp] at hlook
    have hacc := Option.some.inj hlook
    rw [foldl_triadUpd] at hacc
    have hcount : acc.count = (triadGroup data n s p).length := by
      rw [← hacc]
      simp [triadAcc0]
    have hsev : (acc.sumSeverity : ℚ) =
        ((triadGroup data n s p).map (fun d => (d.severityRating : ℚ))).sum := by
      rw [← hacc]
      simp only [triadAcc0, Nat.zero_add]
      rw [Nat.cast_list_sum, List.map_map]
      rfl
    have hres : acc.sumResH =
        ((triadGroup data n s p).map (fun d => d.resolutionTime)).sum := by
      rw [← hacc]
      simp [triadAcc0]
    constructor
    · simpa [mkTriadRow] using hcount
    · simp only [mkTriadRow]
      rw [hcount, hsev, hres]

/-- Witness for C2 (amended): the unique triad row of the one-record set
`[baseRec]`. -/
theorem triad_score_from_rounded_averages_witness :
    wTriadRow.count =
      (triadGroup [baseRec] wTriadRow.defectName wTriadRow.station
        wTriadRow.partOfCar).length ∧
    wTriadRow.score = round2
      (((triadGroup [baseRec] wTriadRow.defectName wTriadRow.station
          wTriadRow.partOfCar).length : ℚ) *
        (6/10 + 4/10 *
          (round2 (((triadGroup [baseRec] wTriadRow.defectName wTriadRow.station
              wTriadRow.partOfCar).map (fun d => (d.severityRating : ℚ))).sum /
            ((triadGroup [baseRec] wTriadRow.defectName wTriadRow.station
              wTriadRow.partOfCar).length : ℚ)) / 10)) +
      2/10 * round2 (((triadGroup [baseRec] wTriadRow.defectName wTriadRow.station
          wTriadRow.partOfCar).map (fun d => d.resolutionTime)).sum /
        ((triadGroup [baseRec] wTriadRow.defectName wTriadRow.station
          wTriadRow.partOfCar).length : ℚ))) :=
  triad_score_from_rounded_averages [baseRec] wTriadRow
    (by
      norm_num [triads, triadRows, groupFold, upsert, sortS, insertS, wTriadRow,
        mkTriadRow, triadKey, triadUpd, triadAcc0, baseRec, round2, round_eq]
      decide)

theorem filter_flat {α : Type} (p : α → Bool) :
    ∀ L : List (List α), L.flatten.filter p = (L.map (List.filter p)).flatten := by
  intro L
  induction L with
  | nil => simp
  | cons l rest ih => simp [List.filter_append, ih]

theorem sum_map_ite_single {κ : Type} [DecidableEq κ] (S : κ → ℕ) :
    ∀ (ks : List κ) (k : κ), ks.Nodup → k ∈ ks →
      (ks.map (fun k0 => if k0 = k then S k0 else 0)).sum = S k := by
  intro ks
  induction ks with
  | nil => intro k _ hk; simp at hk
  | cons k0 ks' ih =>
    intro k hnd hk
    have hnotin : k0 ∉ ks' := (List.nodup_cons.mp hnd).1
    rcases List.mem_cons.mp hk with rfl | hk'
    · have hzero : ∀ x ∈ ks'.map (fun k1 => if k1 = k then S k1 else 0), x = 0 := by
        intro x hx
        obtain ⟨k1, hk1, rfl⟩ := List.mem_map.mp hx
        have : k1 ≠ k := fun hh => hnotin (hh ▸ hk1)
        simp [this]
      simp only [List.map_cons, List.sum_cons, if_pos rfl]
      rw [List.sum_eq_zero hzero]
      simp
    · have hne : k0 ≠ k := fun hh => hnotin (hh ▸ hk')
      simp only [List.map_cons, List.sum_cons, if_neg hne]
      rw [ih k (List.nodup_cons.mp hnd).2 hk']
      simp

theorem sum_counts_flatten (L : List (List HeatCell)) :
    ((L.flatten).map HeatCell.count).sum =
      (L.map (fun l => (l.map HeatCell.count).sum)).sum := by
  induction L with
  | nil => simp
  | cons l rest ih =>
    rw [List.flatten_cons, List.map_append, List.sum_append, ih]
    simp only [List.map_cons, List.sum_cons]

theorem topDefects_nodup (data : List Defect) : (topDefects data).Nodup := by
  unfold topDefects
  have hnd : ((sortS (leCountDesc Prod.snd)
      (countEntries (fun d => d.defectName) data)).map Prod.fst).Nodup := by
    refine (((sortS_perm (leCountDesc Prod.snd)
      (countEntries (fun d => d.defectName) data)).map Prod.fst).nodup_iff).mpr ?_
    exact nodup_keys_groupFold (fun d => d.defectName) (fun n _ => n + 1) 0 data
  exact hnd.sublist ((List.take_sublist 6 _).map Prod.fst)

/-- C7: for every defect among the heatmap's selected top-6 defects, the
heatmap cell counts for that defect sum, over all station/shift
combinations, to the defect's total record count in the full dataset: the
station and shift axes are the complete observed universes, and each cell is
the count of the records with that exact (defect, station, shift) triple. -/
theorem heatmap_defect_cell_sum (data : List Defect) (defect : String)
    (hd : defect ∈ topDefects data) :
    (((heatmapRows data).filter (fun c => decide (c.defectName = defect))).map
      HeatCell.count).sum =
    (data.filter (fun d => decide (d.defectName = defect))).length := by
  have hcell : ∀ st sh, hmCount data defect st sh =
      (data.filter (fun d => decide (d.defectName = defect) &&
        decide (d.station = st) && decide (d.productionShift = sh))).length := by
    intro st sh
    unfold hmCount hmCube
    rw [alookup_groupFold]
    have hfe : (data.filter (fun d => decide (d.defectName ∈ topDefects data))).filter
        (fun d => decide ((d.defectName, d.station, d.productionShift) =
          (defect, st, sh))) =
        data.filter (fun d => decide (d.defectName = defect) &&
          decide (d.station = st) && decide (d.productionShift = sh)) := by
      rw [List.filter_filter]
      refine List.filter_congr ?_
      intro d _
      by_cases h1 : d.defectName = defect
      · by_cases h2 : d.station = st
        · by_cases h3 : d.productionShift = sh
          · simp [h1, h2, h3, Prod.ext_iff, hd]
          · simp [h1, h2, h3, Prod.ext_iff]
        · simp [h1, h2, Prod.ext_iff]
      · simp [h1, Prod.ext_iff]
    rw [hfe]
    by_cases hemp : (data.filter (fun d => decide (d.defectName = defect) &&
        decide (d.station = st) && decide (d.productionShift = sh))).isEmpty
    · rw [if_pos hemp]
      have : data.filter (fun d => decide (d.defectName = defect) &&
          decide (d.station = st) && decide (d.productionShift = sh)) = [] := by
        simpa [List.isEmpty_iff] using hemp
      simp [this]
    · rw [if_neg hemp]
      rw [foldl_count]
      simp
  -- isolate the block of the chosen defect
  have hperblock : ∀ d0 : String,
      ((((hmStations data).map (fun st =>
        ((hmShifts data).map (fun sh =>
          (⟨d0, st, sh, hmCount data d0 st sh⟩ : HeatCell))))).flatten).filter
            (fun c => decide (c.defectName = defect))) =
      if d0 = defect then
        (((hmStations data).map (fun st =>
          ((hmShifts data).map (fun sh =>
            (⟨d0, st, sh, hmCount data d0 st sh⟩ : HeatCell))))).flatten)
      else [] := by
    intro d0
    have hcells : ∀ cell ∈ (((hmStations data).map (fun st =>
        ((hmShifts data).map (fun sh =>
          (⟨d0, st, sh, hmCount data d0 st sh⟩ : HeatCell))))).flatten),
        cell.defectName = d0 := by
      intro cell hcell2
      obtain ⟨inner, hinner, hcellin⟩ := List.mem_flatten.mp hcell2
      obtain ⟨st, _, rfl⟩ := List.mem_map.mp hinner
      obtain ⟨sh, _, rfl⟩ := List.mem_map.mp hcellin
      rfl
    by_cases hd0 : d0 = defect
    · rw [if_pos hd0]
      refine List.filter_eq_self.mpr ?_
      intro cell hcellmem
      simp [hcells cell hcellmem, hd0]
    · rw [if_neg hd0]
      refine List.filter_eq_nil.mpr ?_
      intro cell hcellmem
      simp [hcells cell hcellmem, hd0]
  unfold heatmapRows
  rw [filter_flat, List.map_map]
  have hblocks : ((topDefects data).map
      ((List.filter (fun c => decide (c.defectName = defect))) ∘ (fun d0 =>
        (((hmStations data).map (fun st =>
          ((hmShifts data).map (fun sh =>
            (⟨d0, st, sh, hmCount data d0 st sh⟩ : HeatCell))))).flatten)))) =
      (topDefects data).map (fun d0 =>
        if d0 = defect then
          (((hmStations data).map (fun st =>
            ((hmShifts data).map (fun sh =>
              (⟨d0, st, sh, hmCount data d0 st sh⟩ : HeatCell))))).flatten)
        else []) := by
    refine List.map_congr_left ?_
    intro d0 _
    exact hperblock d0
  rw [hblocks, sum_counts_flatten, List.map_map]
  have hpoint : ((topDefects data).map ((fun l => (l.map HeatCell.count).sum) ∘
      fun d0 => if d0 = defect then
        (((hmStations data).map (fun st =>
          ((hmShifts data).map (fun sh =>
            (⟨d0, st, sh, hmCount data d0 st sh⟩ : HeatCell))))).flatten)
      else [])) =
      (topDefects data).map (fun d0 => if d0 = defect then
        (((((hmStations data).map (fun st =>
          ((hmShifts data).map (fun sh =>
            (⟨d0, st, sh, hmCount data d0 st sh⟩ : HeatCell))))).flatten).map
              HeatCell.count).sum)
      else 0) := by
    refine List.map_congr_left ?_
    intro d0 _
    by_cases hd0 : d0 = defect <;> simp [hd0]
  rw [hpoint,
    sum_map_ite_single (fun d0 =>
      (((((hmStations data).map (fun st =>
        ((hmShifts data).map (fun sh =>
          (⟨d0, st, sh, hmCount data d0 st sh⟩ : HeatCell))))).flatten).map
            HeatCell.count).sum))
      (topDefects data) defect (topDefects_nodup data) hd]
  -- the selected block: sum over stations and shifts of the cell counts
  rw [sum_counts_flatten, List.map_map]
  have hinner2 : ((hmStations data).map ((fun l => (l.map HeatCell.count).sum) ∘
      fun st => ((hmShifts data).map (fun sh =>
        (⟨defect, st, sh, hmCount data defect st sh⟩ : HeatCell))))) =
      (hmStations data).map (fun st =>
        (((data.filter (fun d => decide (d.defectName = defect))).filter
          (fun d => decide (d.station = st))).length)) := by
    refine List.map_congr_left ?_
    intro st _
    simp only [Function.comp_apply, List.map_map]
    have hmapcnt : ((hmShifts data).map (HeatCell.count ∘ fun sh =>
        (⟨defect, st, sh, hmCount data defect st sh⟩ : HeatCell))) =
        (hmShifts data).map (fun sh =>
          (((data.filter (fun d => decide (d.defectName = defect))).filter
            (fun d => decide (d.station = st))).filter
              (fun d => decide (d.productionShift = sh))).length) := by
      refine List.map_congr_left ?_
      intro sh _
      show hmCount data defect st sh = _
      rw [hcell st sh]
      congr 1
      rw [List.filter_filter, List.filter_filter]
      refine List.filter_congr ?_
      intro d _
      cases hA : decide (d.defectName = defect) <;>
        cases hB : decide (d.station = st) <;>
        cases hC : decide (d.productionShift = sh) <;>
        simp [hA, hB, hC]
    rw [hmapcnt]
    exact length_eq_sum_fibres (fun d => d.productionShift) (hmShifts data) _
      (firstKeys_nodup _) (fun d hdm =>
        mem_firstKeys (List.mem_map.mpr
          ⟨d, (List.mem_filter.mp (List.mem_filter.mp hdm).1).1, rfl⟩))
  rw [hinner2]
  exact length_eq_sum_fibres (fun d => d.station) (hmStations data) _
    (firstKeys_nodup _) (fun d hdm =>
      mem_firstKeys (List.mem_map.mpr ⟨d, (List.mem_filter.mp hdm).1, rfl⟩))

/-- Witness for C7 at the two-record set `wData2` and the defect
"Paint Defect" (a member of its top-6 list). -/
theorem heatmap_defect_cell_sum_witness :
    (((heatmapRows wData2).filter
        (fun c => decide (c.defectName = "Paint Defect"))).map HeatCell.count).sum =
    (wData2.filter (fun d => decide (d.defectName = "Paint Defect"))).length :=
  heatmap_defect_cell_sum wData2 "Paint Defect" (by decide)

end QDash
